import Mathlib

/-!
# The user store of `oapi-sample`

A shallow embedding of `internal/repository/user_repository.go` together with
a relational model of the `*sql.DB` handle the repository talks to, followed by
the properties of the five store operations.

Every store operation is a function of
* the database behind the handle (`DB`: the `users` table and the statements
  received so far),
* what the backend contributes to this particular call (`Env`: a failure, if
  any, and the value of the id generator),
* for `Create` and `Update`, the reading of `time.Now()`,

and returns the Go result tuple together with the database after the call.
-/

namespace OapiSample

/-! ## Values -/

/-- Go `time.Time` restricted to what the store observes: the instant, counted
in nanoseconds from the zero `Time`, and the location, as an offset east of
UTC (`0` is UTC). -/
structure Time where
  nanos : Int
  zone : Int
deriving DecidableEq, Repr

/-- The zero value of `time.Time`. -/
def Time.zero : Time := ⟨0, 0⟩

/-- Go `t.UTC()`: the same instant with the location set to UTC. -/
def Time.UTC (t : Time) : Time := { t with zone := 0 }

/-- Go `t.Before(u)`: the instant of `t` is earlier than that of `u`. -/
def Time.Before (t u : Time) : Prop := t.nanos < u.nanos

instance (t u : Time) : Decidable (t.Before u) := by
  unfold Time.Before; infer_instance

/-- Go `error` values seen by the store: the two sentinels it names, any other
error value produced by the backend, and an error wrapping another one
(`fmt.Errorf("...: %w", inner)`). A nil error is `none : Option GoError`. -/
inductive GoError where
  | ErrNoRows
  | ErrNotFound
  | driver (code : Nat)
  | wrap (msg : String) (inner : GoError)
deriving DecidableEq, Repr

/-- Go `errors.Is(err, target)`: `err` or an error in its `Unwrap` chain is
`target`. -/
def errorsIs : GoError → GoError → Bool
  | .wrap msg inner, target =>
      decide (GoError.wrap msg inner = target) || errorsIs inner target
  | err, target => decide (err = target)

/-- Modelled from the spec: `gen.User` (package `internal/gen` is generated
code that is not part of the sources at hand); section 3 gives its five
fields. -/
structure User where
  Id : Int
  Name : String
  Email : String
  CreatedAt : Time
  UpdatedAt : Time
deriving DecidableEq, Repr

/-- The Go zero value `gen.User{}`. -/
def User.zero : User := ⟨0, "", "", Time.zero, Time.zero⟩

/-- Modelled from the spec: `gen.UserRequest` (package `internal/gen`), with
the two fields `name` and `email` of section 3. -/
structure UserRequest where
  Name : String
  Email : String
deriving DecidableEq, Repr

/-! ## The backend -/

/-- Modelled from the spec: the persisted `users` table (the migrations that
create it are not part of the sources at hand). Section 6 makes `id` the
primary key, so no two rows share an id. Rows are kept in heap order. -/
structure Table where
  rows : List User
  pk : (rows.map User.Id).Nodup

/-- The table without rows. -/
def Table.empty : Table := ⟨[], List.nodup_nil⟩

/-- The five statements of the repository with their bound parameters, in the
order of the placeholders `$1, $2, ...` of the query text. -/
inductive Stmt where
  /-- The query of `List`:
  `SELECT id, name, email, created_at, updated_at FROM users ORDER BY id`. -/
  | selectAll
  /-- The query of `Get`:
  `SELECT id, name, email, created_at, updated_at FROM users WHERE id = $1`. -/
  | selectById (id : Int)
  /-- The query of `Create`:
  `INSERT INTO users (name, email, created_at, updated_at) VALUES ($1, $2, $3, $4)
  RETURNING id, name, email, created_at, updated_at`. -/
  | insert (name email : String) (createdAt updatedAt : Time)
  /-- The query of `Update`:
  `UPDATE users SET name = $1, email = $2, updated_at = $3 WHERE id = $4
  RETURNING id, name, email, created_at, updated_at`. -/
  | update (name email : String) (updatedAt : Time) (id : Int)
  /-- The query of `Delete`: `DELETE FROM users WHERE id = $1`. -/
  | delete (id : Int)
deriving DecidableEq, Repr

/-- All rows in ascending order of id: `SELECT ... ORDER BY id`. -/
def Table.selectAll (t : Table) : List User :=
  t.rows.insertionSort (fun a b => a.Id ≤ b.Id)

/-- The rows with the given id: `WHERE id = $1`. -/
def Table.selectById (t : Table) (id : Int) : List User :=
  t.rows.filter (fun u => decide (u.Id = id))

/-- The table after `INSERT`: the row is appended unless its id is already taken, which the
primary key rejects. -/
def Table.insert (t : Table) (u : User) : Option Table :=
  if h : u.Id ∈ t.rows.map User.Id then none
  else some ⟨t.rows ++ [u], by
    rw [List.map_append, List.map_singleton]
    exact List.Nodup.append t.pk (List.nodup_singleton _)
      (by
        intro a ha hb
        rw [List.mem_singleton] at hb
        exact h (hb ▸ ha))⟩

/-- The `SET name = $1, email = $2, updated_at = $3` of `UPDATE`, applied to
one row. -/
def User.set (name email : String) (updatedAt : Time) (u : User) : User :=
  { u with Name := name, Email := email, UpdatedAt := updatedAt }

/-- The table after `UPDATE ... WHERE id = $4`: every matching row is rewritten
in place. -/
def Table.update (t : Table) (name email : String) (updatedAt : Time) (id : Int) : Table :=
  ⟨t.rows.map (fun u => if u.Id = id then u.set name email updatedAt else u), by
    have hid : (t.rows.map (fun u => if u.Id = id then u.set name email updatedAt else u)).map
        User.Id = t.rows.map User.Id := by
      rw [List.map_map]
      apply List.map_congr_left
      intro u _
      by_cases hu : u.Id = id <;> simp [hu, User.set]
    rw [hid]
    exact t.pk⟩

/-- The table after `DELETE ... WHERE id = $1`: every matching row is removed. -/
def Table.delete (t : Table) (id : Int) : Table :=
  ⟨t.rows.filter (fun u => decide (u.Id ≠ id)), by
    have hsub : List.Sublist ((t.rows.filter (fun u => decide (u.Id ≠ id))).map User.Id)
        (t.rows.map User.Id) := List.Sublist.map _ (List.filter_sublist _)
    exact List.Nodup.sublist hsub t.pk⟩

/-- What executing a statement yields: the table afterwards, the rows handed
back (`SELECT`, `RETURNING`) and the number of rows affected. -/
structure Outcome where
  table : Table
  returned : List User
  affected : Nat

/-- The unique-violation error of the primary key (SQLSTATE 23505). -/
def uniqueViolation : GoError := .driver 23505

/-- Execution of one statement against the table; `nextval` is the value the
id generator of the table yields should the statement insert a row. Bound
values are stored and handed back as they were given. -/
def Table.exec (t : Table) (nextval : Int) : Stmt → Except GoError Outcome
  | .selectAll => .ok ⟨t, t.selectAll, t.selectAll.length⟩
  | .selectById id => .ok ⟨t, t.selectById id, (t.selectById id).length⟩
  | .insert name email createdAt updatedAt =>
      match t.insert ⟨nextval, name, email, createdAt, updatedAt⟩ with
      | none => .error uniqueViolation
      | some t1 => .ok ⟨t1, [⟨nextval, name, email, createdAt, updatedAt⟩], 1⟩
  | .update name email updatedAt id =>
      .ok ⟨t.update name email updatedAt id,
        (t.update name email updatedAt id).selectById id, (t.selectById id).length⟩
  | .delete id => .ok ⟨t.delete id, [], (t.selectById id).length⟩

/-- A failure of the backend during one call.
* `exec e`: the statement fails (rejected, connection lost, context cancelled)
  and has no effect; the call reports `e`.
* `scan n e`: the statement is executed; decoding the row at position `n`
  (from 0) of its result fails with `e`.
* `iter n e`: the statement is executed; the cursor breaks off after `n` rows
  and `rows.Err()` reports `e`.
* `affected e`: the statement is executed; `result.RowsAffected()` fails
  with `e`. -/
inductive Fault where
  | none
  | exec (e : GoError)
  | scan (n : Nat) (e : GoError)
  | iter (n : Nat) (e : GoError)
  | affected (e : GoError)
deriving DecidableEq, Repr

/-- What the backend contributes to one call besides the table: the failure,
if any, and the value of the id generator. -/
structure Env where
  fault : Fault
  nextval : Int
deriving DecidableEq, Repr

/-- The database behind the `*sql.DB` handle: the `users` table and the
statements received through the handle, oldest first. -/
structure DB where
  table : Table
  log : List Stmt

/-- A freshly migrated database. -/
def DB.empty : DB := ⟨Table.empty, []⟩

/-- Go `*sql.Rows`: for each row the cursor delivers, what `rows.Scan` does
with it, and what `rows.Err()` reports once `rows.Next()` has returned
false. -/
structure Rows where
  items : List (Except GoError User)
  err : Option GoError

/-- The cursor over the rows a statement returned, under a failure. -/
def Rows.deliver (returned : List User) : Fault → Rows
  | .scan n e =>
      ⟨returned.enum.map (fun p => if p.1 = n then .error e else .ok p.2), none⟩
  | .iter n e => ⟨(returned.take n).map .ok, some e⟩
  | _ => ⟨returned.map .ok, none⟩

/-- Go `db.QueryContext(ctx, query, args...)`: the statement is handed to the
backend, which executes it unless the call fails outright; the rows it returned
are then read through the cursor (`affected` plays no part in a query). -/
def DB.QueryContext (db : DB) (env : Env) (q : Stmt) : Except GoError Rows × DB :=
  match env.fault with
  | .exec e => (.error e, { db with log := db.log ++ [q] })
  | f =>
      match db.table.exec env.nextval q with
      | .error e => (.error e, { db with log := db.log ++ [q] })
      | .ok out => (.ok (Rows.deliver out.returned f), ⟨out.table, db.log ++ [q]⟩)

/-- Go `*sql.Row`: the deferred result of `QueryRowContext`. -/
structure Row where
  result : Except GoError Rows

/-- Go `db.QueryRowContext(ctx, query, args...)`: `QueryContext` with the error
kept for `Scan`. -/
def DB.QueryRowContext (db : DB) (env : Env) (q : Stmt) : Row × DB :=
  (⟨(db.QueryContext env q).1⟩, (db.QueryContext env q).2)

/-- Go `(*sql.Row).Scan`: the deferred error, else `sql.ErrNoRows` when the
cursor delivers no row, else the scan of the first row. -/
def Row.Scan (r : Row) : Except GoError User :=
  match r.result with
  | .error e => .error e
  | .ok rows =>
      match rows.items with
      | [] =>
          match rows.err with
          | some e => .error e
          | none => .error .ErrNoRows
      | .error e :: _ => .error e
      | .ok u :: _ => .ok u

/-- Go `sql.Result`, of which the store uses `RowsAffected()`. -/
structure Result where
  RowsAffected : Except GoError Int

/-- The result handle of an executed statement that affected `affected` rows,
under a failure. -/
def Result.deliver (affected : Nat) : Fault → Result
  | .affected e => ⟨.error e⟩
  | _ => ⟨.ok (Int.ofNat affected)⟩

/-- Go `db.ExecContext(ctx, query, args...)`: the statement is handed to the
backend, which executes it unless the call fails outright (`scan` and `iter`
play no part, as no rows are read). -/
def DB.ExecContext (db : DB) (env : Env) (q : Stmt) : Except GoError Result × DB :=
  match env.fault with
  | .exec e => (.error e, { db with log := db.log ++ [q] })
  | f =>
      match db.table.exec env.nextval q with
      | .error e => (.error e, { db with log := db.log ++ [q] })
      | .ok out => (.ok (Result.deliver out.affected f), ⟨out.table, db.log ++ [q]⟩)

/-- The failure strikes after the backend has executed the statement: while the
returned rows are read, or when the affected-row count is asked for. -/
def Fault.afterExecution : Fault → Bool
  | .scan _ _ => true
  | .iter _ _ => true
  | .affected _ => true
  | _ => false

/-! ## The repository -/

/-- The loop `for rows.Next() { ... rows.Scan ... users = append(users, user) }`
of `List`: the first failing scan ends the call with its error. -/
def UserRepository.scanRows : List (Except GoError User) → List User → Except GoError (List User)
  | [], users => .ok users
  | .error err :: _, _ => .error err
  | .ok user :: rest, users => UserRepository.scanRows rest (users ++ [user])

/-- The body of `List` from the result of `QueryContext` on (lines 37-55); the
nil slice is the empty list. -/
def UserRepository.listResult (reply : Except GoError Rows) : List User × Option GoError :=
  match reply with
  | .error err => ([], some err)
  | .ok rows =>
      match UserRepository.scanRows rows.items [] with
      | .error err => ([], some err)
      | .ok users =>
          match rows.err with
          | some err => ([], some err)
          | none => (users, none)

/-- The method `UserRepository.List` (lines 29-56): one `QueryContext`, then
the loop over the rows and the check of `rows.Err()`. -/
def UserRepository.List (db : DB) (env : Env) : (List User × Option GoError) × DB :=
  (UserRepository.listResult (db.QueryContext env .selectAll).1,
    (db.QueryContext env .selectAll).2)

/-- The method `UserRepository.Get` (lines 59-78): one `QueryRowContext(...).Scan(...)`; an
error that `errors.Is` `sql.ErrNoRows` becomes `ErrNotFound`, any other error is
returned as it is, both with `gen.User{}`. -/
def UserRepository.Get (db : DB) (env : Env) (id : Int) : (User × Option GoError) × DB :=
  match (db.QueryRowContext env (.selectById id)).1.Scan with
  | .error err =>
      if errorsIs err .ErrNoRows then
        ((User.zero, some .ErrNotFound), (db.QueryRowContext env (.selectById id)).2)
      else ((User.zero, some err), (db.QueryRowContext env (.selectById id)).2)
  | .ok user => ((user, none), (db.QueryRowContext env (.selectById id)).2)

/-- The method `UserRepository.Create` (lines 81-98); `clock` is the reading of `time.Now()`,
bound to both `$3` and `$4` after `.UTC()`. Any error is returned as it is. -/
def UserRepository.Create (db : DB) (env : Env) (clock : Time) (req : UserRequest) :
    (User × Option GoError) × DB :=
  let now := clock.UTC
  match (db.QueryRowContext env (.insert req.Name req.Email now now)).1.Scan with
  | .error err =>
      ((User.zero, some err), (db.QueryRowContext env (.insert req.Name req.Email now now)).2)
  | .ok user =>
      ((user, none), (db.QueryRowContext env (.insert req.Name req.Email now now)).2)

/-- The method `UserRepository.Update` (lines 101-122); `clock` is the reading of `time.Now()`,
bound to `$3` after `.UTC()`. Errors are treated as in `Get`. -/
def UserRepository.Update (db : DB) (env : Env) (clock : Time) (id : Int) (req : UserRequest) :
    (User × Option GoError) × DB :=
  let now := clock.UTC
  match (db.QueryRowContext env (.update req.Name req.Email now id)).1.Scan with
  | .error err =>
      if errorsIs err .ErrNoRows then
        ((User.zero, some .ErrNotFound),
          (db.QueryRowContext env (.update req.Name req.Email now id)).2)
      else ((User.zero, some err), (db.QueryRowContext env (.update req.Name req.Email now id)).2)
  | .ok user => ((user, none), (db.QueryRowContext env (.update req.Name req.Email now id)).2)

/-- The method `UserRepository.Delete` (lines 125-143): one `ExecContext`, then
`result.RowsAffected()`; an affected-row count of 0 becomes `ErrNotFound`. -/
def UserRepository.Delete (db : DB) (env : Env) (id : Int) : Option GoError × DB :=
  match (db.ExecContext env (.delete id)).1 with
  | .error err => (some err, (db.ExecContext env (.delete id)).2)
  | .ok result =>
      match result.RowsAffected with
      | .error err => (some err, (db.ExecContext env (.delete id)).2)
      | .ok rowsAffected =>
          if rowsAffected = 0 then (some .ErrNotFound, (db.ExecContext env (.delete id)).2)
          else (none, (db.ExecContext env (.delete id)).2)

/-! ## Sequences of calls -/

/-- One write call to the store, with everything that determines it. -/
inductive Call where
  | create (env : Env) (clock : Time) (req : UserRequest)
  | update (env : Env) (clock : Time) (id : Int) (req : UserRequest)
  | delete (env : Env) (id : Int)

/-- The database after one call. -/
def Call.run (db : DB) : Call → DB
  | .create env clock req => (UserRepository.Create db env clock req).2
  | .update env clock id req => (UserRepository.Update db env clock id req).2
  | .delete env id => (UserRepository.Delete db env id).2

/-- The database after a sequence of calls, first call first. -/
def runCalls (db : DB) (calls : List Call) : DB := calls.foldl Call.run db

/-- The clock reading a call takes, if it takes one. -/
def Call.clock : Call → Option Time
  | .create _ clock _ => some clock
  | .update _ clock _ _ => some clock
  | .delete _ _ => none

/-- No call of the sequence reads the clock at an earlier instant than a call
before it did. -/
def clockNeverBackwards (calls : List Call) : Prop :=
  (calls.filterMap Call.clock).Pairwise (fun a b => ¬ b.Before a)

instance (calls : List Call) : Decidable (clockNeverBackwards calls) := by
  unfold clockNeverBackwards; infer_instance

/-- Every row of the table was created no later than it was last updated, and
last updated no later than instant `c`. -/
def Table.StampedBy (c : Int) (t : Table) : Prop :=
  ∀ u ∈ t.rows, u.CreatedAt.nanos ≤ u.UpdatedAt.nanos ∧ u.UpdatedAt.nanos ≤ c

/-! ## Sample data -/

/-- The request of the scenario of section 8. -/
def ada : UserRequest := ⟨"Ada", "ada@x.io"⟩

/-- The second request of that scenario. -/
def adaL : UserRequest := ⟨"Ada L", "ada@x.io"⟩

/-- The row `Create(ada)` stores when the clock reads instant 100 and the id
generator yields 1. -/
def adaRow : User := ⟨1, "Ada", "ada@x.io", ⟨100, 0⟩, ⟨100, 0⟩⟩

/-- A second row, with id 5. -/
def bobRow : User := ⟨5, "Bob", "bob@x.io", ⟨40, 0⟩, ⟨60, 0⟩⟩

/-- A database holding `adaRow` only. -/
def oneUser : DB := ⟨⟨[adaRow], by decide⟩, []⟩

/-- A database holding `bobRow` and `adaRow`, in that heap order. -/
def twoUsers : DB := ⟨⟨[bobRow, adaRow], by decide⟩, []⟩

/-- A backend that answers the call without failure. -/
def answering (nextval : Int) : Env := ⟨.none, nextval⟩

/-- A backend whose connection is lost before the statement is executed. -/
def connectionLost : Env := ⟨.exec (.driver 7), 0⟩

/-- A backend that executes the statement and then fails with `f`; its id
generator yields 1. -/
def lostAfterExecution (f : Fault) : Env := ⟨f, 1⟩

/-- The error `fmt.Errorf("query: %w", sql.ErrNoRows)`. -/
def wrappedNoRows : GoError := .wrap "query" .ErrNoRows

/-- A backend that fails the statement with `wrappedNoRows`. -/
def failingWrapped : Env := ⟨.exec wrappedNoRows, 0⟩

/-! ## Facts about the backend and the repository -/

theorem Table.ext_rows {t u : Table} (h : t.rows = u.rows) : t = u := by
  cases t; cases u; cases h; rfl

theorem Table.selectById_absent {t : Table} {id : Int} (h : ∀ u ∈ t.rows, u.Id ≠ id) :
    t.selectById id = [] := by
  unfold Table.selectById
  rw [List.filter_eq_nil_iff]
  intro u hu
  simp [h u hu]

theorem Table.absent_of_selectById {t : Table} {id : Int} (h : t.selectById id = []) :
    ∀ u ∈ t.rows, u.Id ≠ id := by
  unfold Table.selectById at h
  rw [List.filter_eq_nil_iff] at h
  intro u hu
  simpa using h u hu

theorem Table.update_absent {t : Table} {id : Int} (h : ∀ u ∈ t.rows, u.Id ≠ id)
    (name email : String) (ts : Time) : t.update name email ts id = t := by
  apply Table.ext_rows
  show t.rows.map (fun u => if u.Id = id then u.set name email ts else u) = t.rows
  conv_rhs => rw [← List.map_id t.rows]
  apply List.map_congr_left
  intro u hu
  simp [h u hu]

theorem Table.delete_absent {t : Table} {id : Int} (h : ∀ u ∈ t.rows, u.Id ≠ id) :
    t.delete id = t := by
  apply Table.ext_rows
  show t.rows.filter (fun u => decide (u.Id ≠ id)) = t.rows
  rw [List.filter_eq_self]
  intro u hu
  simp [h u hu]

/-- Without a failure the cursor delivers every returned row, each scanning
fine. -/
theorem DB.QueryContext_none (db : DB) (env : Env) (q : Stmt) (h : env.fault = .none) :
    db.QueryContext env q =
      match db.table.exec env.nextval q with
      | .error e => (.error e, { db with log := db.log ++ [q] })
      | .ok out => (.ok ⟨out.returned.map .ok, none⟩, ⟨out.table, db.log ++ [q]⟩) := by
  unfold DB.QueryContext
  rw [h]
  cases db.table.exec env.nextval q <;> simp [Rows.deliver]

theorem DB.ExecContext_none (db : DB) (env : Env) (q : Stmt) (h : env.fault = .none) :
    db.ExecContext env q =
      match db.table.exec env.nextval q with
      | .error e => (.error e, { db with log := db.log ++ [q] })
      | .ok out => (.ok ⟨.ok (Int.ofNat out.affected)⟩, ⟨out.table, db.log ++ [q]⟩) := by
  unfold DB.ExecContext
  rw [h]
  cases db.table.exec env.nextval q <;> simp [Result.deliver]

theorem DB.QueryContext_cases (db : DB) (env : Env) (q : Stmt) :
    (∃ e, env.fault = .exec e ∧
      db.QueryContext env q = (.error e, ⟨db.table, db.log ++ [q]⟩)) ∨
    ((∀ e, env.fault ≠ .exec e) ∧ ∃ e, db.table.exec env.nextval q = .error e ∧
      db.QueryContext env q = (.error e, ⟨db.table, db.log ++ [q]⟩)) ∨
    ((∀ e, env.fault ≠ .exec e) ∧ ∃ out, db.table.exec env.nextval q = .ok out ∧
      db.QueryContext env q
        = (.ok (Rows.deliver out.returned env.fault), ⟨out.table, db.log ++ [q]⟩)) := by
  unfold DB.QueryContext
  cases hf : env.fault with
  | exec e => exact Or.inl ⟨e, rfl, rfl⟩
  | none | scan _ _ | iter _ _ | affected _ =>
    right
    cases hx : db.table.exec env.nextval q with
    | error e => exact Or.inl ⟨by simp, e, rfl, rfl⟩
    | ok out => exact Or.inr ⟨by simp, out, rfl, rfl⟩

theorem DB.ExecContext_cases (db : DB) (env : Env) (q : Stmt) :
    (∃ e, env.fault = .exec e ∧
      db.ExecContext env q = (.error e, ⟨db.table, db.log ++ [q]⟩)) ∨
    ((∀ e, env.fault ≠ .exec e) ∧ ∃ e, db.table.exec env.nextval q = .error e ∧
      db.ExecContext env q = (.error e, ⟨db.table, db.log ++ [q]⟩)) ∨
    ((∀ e, env.fault ≠ .exec e) ∧ ∃ out, db.table.exec env.nextval q = .ok out ∧
      db.ExecContext env q
        = (.ok (Result.deliver out.affected env.fault), ⟨out.table, db.log ++ [q]⟩)) := by
  unfold DB.ExecContext
  cases hf : env.fault with
  | exec e => exact Or.inl ⟨e, rfl, rfl⟩
  | none | scan _ _ | iter _ _ | affected _ =>
    right
    cases hx : db.table.exec env.nextval q with
    | error e => exact Or.inl ⟨by simp, e, rfl, rfl⟩
    | ok out => exact Or.inr ⟨by simp, out, rfl, rfl⟩

/-- A successful `Scan` hands back the first row the statement returned. -/
theorem Row.Scan_deliver {returned : List User} {f : Fault} {v : User}
    (h : Row.Scan ⟨.ok (Rows.deliver returned f)⟩ = .ok v) : returned.head? = some v := by
  cases returned with
  | nil =>
    cases f <;> simp [Row.Scan, Rows.deliver, List.enum] at h
  | cons a rest =>
    cases f with
    | scan n e =>
      by_cases hn : 0 = n
      · simp [Row.Scan, Rows.deliver, List.enum, List.enumFrom, hn] at h
      · simp [Row.Scan, Rows.deliver, List.enum, List.enumFrom, hn] at h
        simp [h]
    | iter n e =>
      cases n with
      | zero => simp [Row.Scan, Rows.deliver] at h
      | succ n =>
        simp [Row.Scan, Rows.deliver] at h
        simp [h]
    | none | exec _ | affected _ =>
      simp [Row.Scan, Rows.deliver] at h
      simp [h]

theorem Table.insert_some {t t1 : Table} {u : User} (h : t.insert u = some t1) :
    t1.rows = t.rows ++ [u] ∧ ∀ v ∈ t.rows, v.Id ≠ u.Id := by
  unfold Table.insert at h
  split at h
  · cases h
  · rename_i hmem
    simp only [Option.some.injEq] at h
    subst h
    refine ⟨rfl, ?_⟩
    intro v hv hid
    exact hmem (hid ▸ List.mem_map_of_mem User.Id hv)

/-- Under the primary key, `WHERE id = $1` selects exactly the row with
that id. -/
theorem Table.selectById_mem {t : Table} {u : User} (h : u ∈ t.rows) :
    t.selectById u.Id = [u] := by
  obtain ⟨rows, pk⟩ := t
  unfold Table.selectById
  simp only at h ⊢
  induction rows with
  | nil => cases h
  | cons a rest ih =>
    rw [List.map_cons, List.nodup_cons] at pk
    rcases List.mem_cons.mp h with rfl | hmem
    · have hrest : rest.filter (fun v => decide (v.Id = u.Id)) = [] := by
        rw [List.filter_eq_nil_iff]
        intro v hv
        have : v.Id ≠ u.Id := fun hid => pk.1 (hid ▸ List.mem_map_of_mem User.Id hv)
        simp [this]
      simp [List.filter_cons, hrest]
    · have ha : a.Id ≠ u.Id := fun hid => pk.1 (hid ▸ List.mem_map_of_mem User.Id hmem)
      simp [List.filter_cons, ha, ih pk.2 hmem]

/-- The database after `Create` is the database after its one statement. -/
theorem create_db (db : DB) (env : Env) (clock : Time) (req : UserRequest) :
    (UserRepository.Create db env clock req).2
      = (db.QueryContext env (.insert req.Name req.Email clock.UTC clock.UTC)).2 := by
  unfold UserRepository.Create DB.QueryRowContext
  simp only
  split <;> rfl

/-- The database after `Update` is the database after its one statement. -/
theorem update_db (db : DB) (env : Env) (clock : Time) (id : Int) (req : UserRequest) :
    (UserRepository.Update db env clock id req).2
      = (db.QueryContext env (.update req.Name req.Email clock.UTC id)).2 := by
  unfold UserRepository.Update DB.QueryRowContext
  simp only
  split
  · split <;> rfl
  · rfl

/-- The database after `Delete` is the database after its one statement. -/
theorem delete_db (db : DB) (env : Env) (id : Int) :
    (UserRepository.Delete db env id).2 = (db.ExecContext env (.delete id)).2 := by
  unfold UserRepository.Delete
  split
  · rfl
  · split
    · rfl
    · split <;> rfl

/-- What a successful `Create` returned and did. -/
theorem create_success {db : DB} {env : Env} {clock : Time} {req : UserRequest} {u : User}
    (h : (UserRepository.Create db env clock req).1 = (u, none)) :
    u = ⟨env.nextval, req.Name, req.Email, clock.UTC, clock.UTC⟩ ∧
    (UserRepository.Create db env clock req).2.table.rows = db.table.rows ++ [u] ∧
    (∀ v ∈ db.table.rows, v.Id ≠ u.Id) := by
  rw [create_db]
  unfold UserRepository.Create DB.QueryRowContext at h
  simp only at h
  rcases DB.QueryContext_cases db env (.insert req.Name req.Email clock.UTC clock.UTC) with
    ⟨e, _, hq⟩ | ⟨_, e, _, hq⟩ | ⟨_, out, hx, hq⟩
  · rw [hq] at h
    simp [Row.Scan] at h
  · rw [hq] at h
    simp [Row.Scan] at h
  · rw [hq] at h ⊢
    simp only [Table.exec] at hx
    split at hx
    · cases hx
    · rename_i t1 hins
      cases hx
      simp only at h ⊢
      split at h
      · simp at h
      · rename_i user hscan
        have hhead := Row.Scan_deliver hscan
        simp only [List.head?_cons, Option.some.injEq] at hhead
        simp only [Prod.mk.injEq, and_true] at h
        subst h hhead
        obtain ⟨hrows, hfresh⟩ := Table.insert_some hins
        exact ⟨rfl, hrows, hfresh⟩

/-- Under the primary key a row is determined by its id. -/
theorem Table.row_unique {t : Table} {u v : User} (hu : u ∈ t.rows) (hv : v ∈ t.rows)
    (hid : u.Id = v.Id) : u = v := by
  have h1 := Table.selectById_mem hu
  have h2 := Table.selectById_mem hv
  rw [hid, h2] at h1
  simpa using h1.symm

/-- What a successful `Update` returned and did. -/
theorem update_success {db : DB} {env : Env} {clock : Time} {id : Int} {req : UserRequest}
    {u : User} (h : (UserRepository.Update db env clock id req).1 = (u, none)) :
    (∃ original ∈ db.table.rows, original.Id = id ∧
      u = original.set req.Name req.Email clock.UTC) ∧
    (UserRepository.Update db env clock id req).2.table
      = db.table.update req.Name req.Email clock.UTC id := by
  rw [update_db]
  unfold UserRepository.Update DB.QueryRowContext at h
  simp only at h
  rcases DB.QueryContext_cases db env (.update req.Name req.Email clock.UTC id) with
    ⟨e, _, hq⟩ | ⟨_, e, _, hq⟩ | ⟨_, out, hx, hq⟩
  · rw [hq] at h
    by_cases he : errorsIs e .ErrNoRows <;> simp [Row.Scan, he] at h
  · rw [hq] at h
    by_cases he : errorsIs e .ErrNoRows <;> simp [Row.Scan, he] at h
  · rw [hq] at h ⊢
    simp only [Table.exec] at hx
    cases hx
    simp only at h ⊢
    split at h
    · rename_i e _
      by_cases he : errorsIs e .ErrNoRows <;> simp [he] at h
    · rename_i user hscan
      have hhead := Row.Scan_deliver hscan
      simp only [Prod.mk.injEq, and_true] at h
      subst h
      refine ⟨?_, trivial⟩
      have hmem : user ∈ (db.table.update req.Name req.Email clock.UTC id).selectById id :=
        List.mem_of_mem_head? hhead
      unfold Table.selectById Table.update at hmem
      simp only [List.mem_filter, List.mem_map, decide_eq_true_eq] at hmem
      obtain ⟨⟨o, ho, hou⟩, huid⟩ := hmem
      by_cases hoid : o.Id = id
      · exact ⟨o, ho, hoid, by simpa [hoid] using hou.symm⟩
      · simp only [hoid, if_false] at hou
        exact absurd (hou ▸ huid) hoid

/-- What a successful `Delete` did. -/
theorem delete_success {db : DB} {env : Env} {id : Int}
    (h : (UserRepository.Delete db env id).1 = none) :
    (UserRepository.Delete db env id).2.table = db.table.delete id := by
  rw [delete_db]
  unfold UserRepository.Delete at h
  rcases DB.ExecContext_cases db env (.delete id) with
    ⟨e, _, hq⟩ | ⟨_, e, _, hq⟩ | ⟨_, out, hx, hq⟩
  · rw [hq] at h
    simp at h
  · rw [hq] at h
    simp at h
  · rw [hq]
    simp only [Table.exec] at hx
    cases hx
    rfl

theorem Table.delete_absent_after (t : Table) (id : Int) :
    ∀ u ∈ (t.delete id).rows, u.Id ≠ id := by
  intro u hu
  unfold Table.delete at hu
  simp only [List.mem_filter, decide_eq_true_eq] at hu
  simpa using hu.2

/-- The result of `Get` for an id without a row, answered without failure. -/
theorem get_of_absent {db : DB} {env : Env} {id : Int} (hfault : env.fault = .none)
    (habsent : ∀ u ∈ db.table.rows, u.Id ≠ id) :
    (db.QueryRowContext env (.selectById id)).1.Scan = .error .ErrNoRows ∧
    (UserRepository.Get db env id).1 = (User.zero, some .ErrNotFound) := by
  have hsel : (db.QueryRowContext env (.selectById id)).1.Scan = .error .ErrNoRows := by
    simp [DB.QueryRowContext, DB.QueryContext_none db env _ hfault, Table.exec,
      Table.selectById_absent habsent, Row.Scan]
  refine ⟨hsel, ?_⟩
  unfold UserRepository.Get
  rw [hsel]
  simp [errorsIs]

/-- The result of `Update` for an id without a row, answered without failure. -/
theorem update_of_absent {db : DB} {env : Env} {id : Int} (clock : Time) (req : UserRequest)
    (hfault : env.fault = .none) (habsent : ∀ u ∈ db.table.rows, u.Id ≠ id) :
    (db.QueryRowContext env (.update req.Name req.Email clock.UTC id)).1.Scan
      = .error .ErrNoRows ∧
    (UserRepository.Update db env clock id req).1 = (User.zero, some .ErrNotFound) := by
  have hupd : (db.QueryRowContext env (.update req.Name req.Email clock.UTC id)).1.Scan
      = .error .ErrNoRows := by
    simp [DB.QueryRowContext, DB.QueryContext_none db env _ hfault, Table.exec,
      Table.update_absent habsent, Table.selectById_absent habsent, Row.Scan]
  refine ⟨hupd, ?_⟩
  unfold UserRepository.Update
  simp only []
  rw [hupd]
  simp [errorsIs]

/-- The result of `Delete` for an id without a row, answered without failure. -/
theorem delete_of_absent {db : DB} {env : Env} {id : Int} (hfault : env.fault = .none)
    (habsent : ∀ u ∈ db.table.rows, u.Id ≠ id) :
    (db.ExecContext env (.delete id)).1 = .ok ⟨.ok 0⟩ ∧
    (UserRepository.Delete db env id).1 = some .ErrNotFound := by
  have hdel : (db.ExecContext env (.delete id)).1 = .ok ⟨.ok 0⟩ := by
    simp [DB.ExecContext_none db env _ hfault, Table.exec, Table.selectById_absent habsent]
  refine ⟨hdel, ?_⟩
  unfold UserRepository.Delete
  rw [hdel]
  simp

/-- When every row scans, the loop of `List` appends them all, in order. -/
theorem scanRows_ok (l acc : List User) :
    UserRepository.scanRows (l.map .ok) acc = .ok (acc ++ l) := by
  induction l generalizing acc with
  | nil => simp [UserRepository.scanRows]
  | cons a rest ih => simp [UserRepository.scanRows, ih]

/-- The first failing scan decides the loop of `List`, whatever was appended
before it. -/
theorem scanRows_error (scanned acc : List User) (e : GoError)
    (rest : List (Except GoError User)) :
    UserRepository.scanRows (scanned.map .ok ++ .error e :: rest) acc = .error e := by
  induction scanned generalizing acc with
  | nil => simp [UserRepository.scanRows]
  | cons a more ih => simp [UserRepository.scanRows, ih]

/-- The cursor of a `scan n e` failure, row by row. -/
theorem scanRows_enumFrom (l : List User) (n : Nat) (e : GoError) :
    ∀ (k : Nat) (acc : List User), k ≤ n → n - k < l.length →
      UserRepository.scanRows
        ((l.enumFrom k).map (fun p => if p.1 = n then .error e else .ok p.2)) acc
        = .error e := by
  induction l with
  | nil => intro k acc _ h; simp at h
  | cons a rest ih =>
    intro k acc hk hlen
    by_cases hkn : k = n
    · simp [List.enumFrom, UserRepository.scanRows, hkn]
    · have hlt : k < n := lt_of_le_of_ne hk hkn
      simp only [List.enumFrom, List.map_cons, hkn, if_false, UserRepository.scanRows]
      apply ih (k + 1) _ hlt
      simp only [List.length_cons] at hlen
      omega

theorem Table.selectAll_perm (t : Table) : t.selectAll.Perm t.rows :=
  List.perm_insertionSort _ _

theorem Table.selectAll_ascending (t : Table) :
    (t.selectAll.map User.Id).Pairwise (fun a b => a < b) := by
  have htotal : IsTotal User (fun a b => a.Id ≤ b.Id) := ⟨fun a b => le_total a.Id b.Id⟩
  have htrans : IsTrans User (fun a b => a.Id ≤ b.Id) := ⟨fun _ _ _ h1 h2 => le_trans h1 h2⟩
  have hsorted : (t.rows.insertionSort (fun a b => a.Id ≤ b.Id)).Pairwise
      (fun a b => a.Id ≤ b.Id) := List.sorted_insertionSort _ _
  have hle : (t.selectAll.map User.Id).Pairwise (fun a b => a ≤ b) := by
    rw [List.pairwise_map]
    exact hsorted
  have hnodup : (t.selectAll.map User.Id).Pairwise (fun a b => a ≠ b) :=
    ((t.selectAll_perm.map User.Id).nodup_iff).mpr t.pk
  exact (hle.and hnodup).imp (fun h => lt_of_le_of_ne h.1 h.2)

/-- The result of `List` answered without failure. -/
theorem list_none (db : DB) (env : Env) (hfault : env.fault = .none) :
    (UserRepository.List db env).1 = (db.table.selectAll, none) := by
  unfold UserRepository.List
  simp [DB.QueryContext_none db env _ hfault, Table.exec, UserRepository.listResult, scanRows_ok]

theorem DB.QueryContext_log (db : DB) (env : Env) (q : Stmt) :
    (db.QueryContext env q).2.log = db.log ++ [q] := by
  rcases DB.QueryContext_cases db env q with ⟨e, _, hq⟩ | ⟨_, e, _, hq⟩ | ⟨_, out, _, hq⟩ <;>
    rw [hq]

theorem DB.ExecContext_log (db : DB) (env : Env) (q : Stmt) :
    (db.ExecContext env q).2.log = db.log ++ [q] := by
  rcases DB.ExecContext_cases db env q with ⟨e, _, hq⟩ | ⟨_, e, _, hq⟩ | ⟨_, out, _, hq⟩ <;>
    rw [hq]

theorem Fault.eq_none_of_not_after {f : Fault} (hexec : ∀ e, f ≠ .exec e)
    (hafter : f.afterExecution = false) : f = .none := by
  cases f with
  | none => rfl
  | exec e => exact absurd rfl (hexec e)
  | scan _ _ => simp [Fault.afterExecution] at hafter
  | iter _ _ => simp [Fault.afterExecution] at hafter
  | affected _ => simp [Fault.afterExecution] at hafter

/-- The table after `Create`: as before, or with the new row appended. -/
theorem create_table_cases (db : DB) (env : Env) (clock : Time) (req : UserRequest) :
    (UserRepository.Create db env clock req).2.table = db.table ∨
    (UserRepository.Create db env clock req).2.table.rows
      = db.table.rows ++ [⟨env.nextval, req.Name, req.Email, clock.UTC, clock.UTC⟩] := by
  rw [create_db]
  rcases DB.QueryContext_cases db env (.insert req.Name req.Email clock.UTC clock.UTC) with
    ⟨e, _, hq⟩ | ⟨_, e, _, hq⟩ | ⟨_, out, hx, hq⟩
  · exact Or.inl (by rw [hq])
  · exact Or.inl (by rw [hq])
  · right
    rw [hq]
    simp only [Table.exec] at hx
    split at hx
    · cases hx
    · rename_i t1 hins
      cases hx
      exact (Table.insert_some hins).1

/-- The table after `Update`: as before, or with the matching row rewritten. -/
theorem update_table_cases (db : DB) (env : Env) (clock : Time) (id : Int)
    (req : UserRequest) :
    (UserRepository.Update db env clock id req).2.table = db.table ∨
    (UserRepository.Update db env clock id req).2.table
      = db.table.update req.Name req.Email clock.UTC id := by
  rw [update_db]
  rcases DB.QueryContext_cases db env (.update req.Name req.Email clock.UTC id) with
    ⟨e, _, hq⟩ | ⟨_, e, _, hq⟩ | ⟨_, out, hx, hq⟩
  · exact Or.inl (by rw [hq])
  · exact Or.inl (by rw [hq])
  · right
    rw [hq]
    simp only [Table.exec] at hx
    cases hx
    rfl

/-- The table after `Delete`: as before, or with the matching row removed. -/
theorem delete_table_cases (db : DB) (env : Env) (id : Int) :
    (UserRepository.Delete db env id).2.table = db.table ∨
    (UserRepository.Delete db env id).2.table = db.table.delete id := by
  rw [delete_db]
  rcases DB.ExecContext_cases db env (.delete id) with
    ⟨e, _, hq⟩ | ⟨_, e, _, hq⟩ | ⟨_, out, hx, hq⟩
  · exact Or.inl (by rw [hq])
  · exact Or.inl (by rw [hq])
  · right
    rw [hq]
    simp only [Table.exec] at hx
    cases hx
    rfl

/-- A failed `Create` whose failure did not strike after execution stored
nothing. -/
theorem create_failed {db : DB} {env : Env} {clock : Time} {req : UserRequest}
    (herr : (UserRepository.Create db env clock req).1.2 ≠ none)
    (hafter : env.fault.afterExecution = false) :
    (UserRepository.Create db env clock req).2.table = db.table := by
  rw [create_db]
  rcases DB.QueryContext_cases db env (.insert req.Name req.Email clock.UTC clock.UTC) with
    ⟨e, _, hq⟩ | ⟨_, e, _, hq⟩ | ⟨hexec, out, hx, hq⟩
  · rw [hq]
  · rw [hq]
  · exfalso
    apply herr
    have hnone := Fault.eq_none_of_not_after hexec hafter
    unfold UserRepository.Create DB.QueryRowContext
    simp only
    rw [hq]
    simp only [Table.exec] at hx
    split at hx
    · cases hx
    · cases hx
      simp [Row.Scan, Rows.deliver, hnone]

theorem Table.absent_of_update_selectById {t : Table} {name email : String} {ts : Time}
    {id : Int} (h : (t.update name email ts id).selectById id = []) :
    ∀ u ∈ t.rows, u.Id ≠ id := by
  intro u hu hid
  have hmem : u.set name email ts ∈ (t.update name email ts id).rows := by
    unfold Table.update
    simp only [List.mem_map]
    exact ⟨u, hu, by simp [hid]⟩
  exact Table.absent_of_selectById h _ hmem (by simpa [User.set] using hid)

/-- A failed `Update` whose failure did not strike after execution rewrote
nothing. -/
theorem update_failed {db : DB} {env : Env} {clock : Time} {id : Int} {req : UserRequest}
    (herr : (UserRepository.Update db env clock id req).1.2 ≠ none)
    (hafter : env.fault.afterExecution = false) :
    (UserRepository.Update db env clock id req).2.table = db.table := by
  rw [update_db]
  rcases DB.QueryContext_cases db env (.update req.Name req.Email clock.UTC id) with
    ⟨e, _, hq⟩ | ⟨_, e, _, hq⟩ | ⟨hexec, out, hx, hq⟩
  · rw [hq]
  · rw [hq]
  · have hnone := Fault.eq_none_of_not_after hexec hafter
    simp only [Table.exec] at hx
    cases hx
    rw [hq]
    cases hret : (db.table.update req.Name req.Email clock.UTC id).selectById id with
    | nil =>
      exact Table.update_absent (Table.absent_of_update_selectById hret) _ _ _
    | cons a rest =>
      exfalso
      apply herr
      unfold UserRepository.Update DB.QueryRowContext
      simp only
      rw [hq]
      simp [Row.Scan, Rows.deliver, hnone, hret]

/-- A failed `Delete` whose failure did not strike after execution removed
nothing. -/
theorem delete_failed {db : DB} {env : Env} {id : Int}
    (herr : (UserRepository.Delete db env id).1 ≠ none)
    (hafter : env.fault.afterExecution = false) :
    (UserRepository.Delete db env id).2.table = db.table := by
  rw [delete_db]
  rcases DB.ExecContext_cases db env (.delete id) with
    ⟨e, _, hq⟩ | ⟨_, e, _, hq⟩ | ⟨hexec, out, hx, hq⟩
  · rw [hq]
  · rw [hq]
  · have hnone := Fault.eq_none_of_not_after hexec hafter
    simp only [Table.exec] at hx
    cases hx
    rw [hq]
    cases hret : db.table.selectById id with
    | nil => exact Table.delete_absent (Table.absent_of_selectById hret)
    | cons a rest =>
      exfalso
      apply herr
      unfold UserRepository.Delete
      rw [hq]
      have hpos : (rest.length : Int) + 1 ≠ 0 := by omega
      simp [Result.deliver, hnone, hret, hpos]

theorem Table.StampedBy.mono {c d : Int} {t : Table} (h : t.StampedBy c) (hcd : c ≤ d) :
    t.StampedBy d :=
  fun u hu => ⟨(h u hu).1, le_trans (h u hu).2 hcd⟩

theorem stamped_create {db : DB} {c : Int} (env : Env) (clock : Time) (req : UserRequest)
    (h : db.table.StampedBy c) (hc : c ≤ clock.nanos) :
    (UserRepository.Create db env clock req).2.table.StampedBy clock.nanos := by
  rcases create_table_cases db env clock req with heq | heq
  · rw [heq]
    exact h.mono hc
  · intro u hu
    rw [heq, List.mem_append, List.mem_singleton] at hu
    rcases hu with hu | rfl
    · exact (h.mono hc) u hu
    · exact ⟨le_refl _, le_refl _⟩

theorem stamped_update {db : DB} {c : Int} (env : Env) (clock : Time) (id : Int)
    (req : UserRequest) (h : db.table.StampedBy c) (hc : c ≤ clock.nanos) :
    (UserRepository.Update db env clock id req).2.table.StampedBy clock.nanos := by
  rcases update_table_cases db env clock id req with heq | heq
  · rw [heq]
    exact h.mono hc
  · intro u hu
    rw [heq] at hu
    unfold Table.update at hu
    simp only [List.mem_map] at hu
    obtain ⟨o, ho, hou⟩ := hu
    by_cases hoid : o.Id = id
    · simp only [hoid, if_true] at hou
      subst hou
      exact ⟨le_trans (h o ho).1 (le_trans (h o ho).2 hc), le_refl _⟩
    · simp only [hoid, if_false] at hou
      subst hou
      exact (h.mono hc) o ho

theorem stamped_delete {db : DB} {c : Int} (env : Env) (id : Int)
    (h : db.table.StampedBy c) :
    (UserRepository.Delete db env id).2.table.StampedBy c := by
  rcases delete_table_cases db env id with heq | heq
  · rw [heq]
    exact h
  · intro u hu
    rw [heq] at hu
    unfold Table.delete at hu
    exact h u (List.mem_filter.mp hu).1

/-- The stamps stay ordered along any sequence of calls whose clock readings
never go backwards. -/
theorem runCalls_stamped (calls : List Call) :
    ∀ (db : DB) (c : Int), db.table.StampedBy c →
      (∀ t ∈ calls.filterMap Call.clock, c ≤ t.nanos) → clockNeverBackwards calls →
      ∃ d, (runCalls db calls).table.StampedBy d := by
  induction calls with
  | nil => exact fun db c h _ _ => ⟨c, h⟩
  | cons call rest ih =>
    intro db c h hlow hmono
    show ∃ d, (runCalls (Call.run db call) rest).table.StampedBy d
    cases call with
    | create env clock req =>
      have hc : c ≤ clock.nanos := hlow clock (by simp [Call.clock])
      unfold clockNeverBackwards at hmono
      simp only [List.filterMap_cons, Call.clock, List.pairwise_cons] at hmono
      refine ih _ clock.nanos (stamped_create env clock req h hc) ?_ hmono.2
      intro t ht
      exact not_lt.mp (hmono.1 t ht)
    | update env clock id req =>
      have hc : c ≤ clock.nanos := hlow clock (by simp [Call.clock])
      unfold clockNeverBackwards at hmono
      simp only [List.filterMap_cons, Call.clock, List.pairwise_cons] at hmono
      refine ih _ clock.nanos (stamped_update env clock id req h hc) ?_ hmono.2
      intro t ht
      exact not_lt.mp (hmono.1 t ht)
    | delete env id =>
      unfold clockNeverBackwards at hmono
      simp only [List.filterMap_cons, Call.clock] at hmono hlow
      exact ih _ c (stamped_delete env id h) hlow hmono

/-- An id that no row has is accepted by `INSERT`. -/
theorem Table.insert_fresh {t : Table} {u : User} (h : ∀ v ∈ t.rows, v.Id ≠ u.Id) :
    ∃ t1, t.insert u = some t1 ∧ t1.rows = t.rows ++ [u] := by
  have hmem : ¬ u.Id ∈ t.rows.map User.Id := by
    intro hin
    obtain ⟨v, hv, hid⟩ := List.mem_map.mp hin
    exact h v hv hid
  unfold Table.insert
  rw [dif_neg hmem]
  exact ⟨_, rfl, rfl⟩

/-- Under the primary key, the `RETURNING` of an `UPDATE` that matched a row is
that row, rewritten. -/
theorem Table.update_returning {t : Table} {original : User} (name email : String)
    (ts : Time) (h : original ∈ t.rows) :
    (t.update name email ts original.Id).selectById original.Id
      = [original.set name email ts] ∧
    original.set name email ts ∈ (t.update name email ts original.Id).rows := by
  have hmem : original.set name email ts ∈ (t.update name email ts original.Id).rows := by
    unfold Table.update
    simp only [List.mem_map]
    exact ⟨original, h, by simp⟩
  exact ⟨Table.selectById_mem hmem, hmem⟩

/-- The first row of a cursor cannot be read under `scan 0 e` and `iter 0 e`. -/
theorem Row.Scan_unread {f : Fault} {e : GoError} (hf : f = .scan 0 e ∨ f = .iter 0 e)
    (u : User) : Row.Scan ⟨.ok (Rows.deliver [u] f)⟩ = .error e := by
  rcases hf with hf | hf <;> subst hf <;>
    simp [Row.Scan, Rows.deliver, List.enum, List.enumFrom]

/-- The statement of a call whose first row cannot be read was executed. -/
theorem DB.QueryContext_unread {db : DB} {env : Env} {e : GoError} {out : Outcome} (q : Stmt)
    (hf : env.fault = .scan 0 e ∨ env.fault = .iter 0 e)
    (hx : db.table.exec env.nextval q = .ok out) :
    db.QueryContext env q
      = (.ok (Rows.deliver out.returned env.fault), ⟨out.table, db.log ++ [q]⟩) := by
  rcases DB.QueryContext_cases db env q with ⟨e1, he1, _⟩ | ⟨_, e1, hx1, _⟩ | ⟨_, out1, hx1, hq⟩
  · rcases hf with hf | hf <;> rw [hf] at he1 <;> cases he1
  · rw [hx] at hx1
    cases hx1
  · rw [hx] at hx1
    cases hx1
    exact hq

/-- A `Create` whose returned row cannot be read returns the error of the
backend and has stored the row. -/
theorem create_unread {db : DB} {env : Env} {e : GoError} (clock : Time) (req : UserRequest)
    (hf : env.fault = .scan 0 e ∨ env.fault = .iter 0 e)
    (hfresh : ∀ v ∈ db.table.rows, v.Id ≠ env.nextval) :
    (UserRepository.Create db env clock req).1 = (User.zero, some e) ∧
    (UserRepository.Create db env clock req).2.table.rows
      = db.table.rows ++ [⟨env.nextval, req.Name, req.Email, clock.UTC, clock.UTC⟩] := by
  obtain ⟨t1, hins, hrows⟩ := Table.insert_fresh
    (t := db.table) (u := ⟨env.nextval, req.Name, req.Email, clock.UTC, clock.UTC⟩) hfresh
  have hx : db.table.exec env.nextval (.insert req.Name req.Email clock.UTC clock.UTC)
      = .ok ⟨t1, [⟨env.nextval, req.Name, req.Email, clock.UTC, clock.UTC⟩], 1⟩ := by
    simp only [Table.exec, hins]
  have hq := DB.QueryContext_unread (.insert req.Name req.Email clock.UTC clock.UTC) hf hx
  refine ⟨?_, ?_⟩
  · unfold UserRepository.Create DB.QueryRowContext
    simp only
    rw [hq]
    simp only
    rw [Row.Scan_unread hf]
  · rw [create_db, hq]
    exact hrows

/-- An `Update` of an existing row whose returned row cannot be read returns
the error of the backend, translated as in `Get`, and has rewritten the row. -/
theorem update_unread {db : DB} {env : Env} {e : GoError} {original : User} (clock : Time)
    (req : UserRequest) (hf : env.fault = .scan 0 e ∨ env.fault = .iter 0 e)
    (horig : original ∈ db.table.rows) :
    (UserRepository.Update db env clock original.Id req).1
      = (User.zero, some (if errorsIs e .ErrNoRows then .ErrNotFound else e)) ∧
    (UserRepository.Update db env clock original.Id req).2.table
      = db.table.update req.Name req.Email clock.UTC original.Id ∧
    original.set req.Name req.Email clock.UTC
      ∈ (UserRepository.Update db env clock original.Id req).2.table.rows := by
  obtain ⟨hret, hmem⟩ := Table.update_returning req.Name req.Email clock.UTC horig
  have hx : db.table.exec env.nextval (.update req.Name req.Email clock.UTC original.Id)
      = .ok ⟨db.table.update req.Name req.Email clock.UTC original.Id,
          [original.set req.Name req.Email clock.UTC],
          (db.table.selectById original.Id).length⟩ := by
    simp only [Table.exec, hret]
  have hq := DB.QueryContext_unread (.update req.Name req.Email clock.UTC original.Id) hf hx
  have htable : (UserRepository.Update db env clock original.Id req).2.table
      = db.table.update req.Name req.Email clock.UTC original.Id := by
    rw [update_db, hq]
  refine ⟨?_, htable, ?_⟩
  · unfold UserRepository.Update DB.QueryRowContext
    simp only
    rw [hq]
    simp only
    rw [Row.Scan_unread hf]
    by_cases he : errorsIs e .ErrNoRows <;> simp [he]
  · rw [htable]
    exact hmem

/-- A `Delete` whose affected-row count cannot be read returns the error of the
backend and has removed the row. -/
theorem delete_unread {db : DB} {env : Env} {e : GoError} (id : Int)
    (hf : env.fault = .affected e) :
    (UserRepository.Delete db env id).1 = some e ∧
    (UserRepository.Delete db env id).2.table = db.table.delete id := by
  have hq : db.ExecContext env (.delete id)
      = (.ok ⟨.error e⟩, ⟨db.table.delete id, db.log ++ [.delete id]⟩) := by
    unfold DB.ExecContext
    rw [hf]
    simp only [Table.exec, Result.deliver]
  refine ⟨?_, ?_⟩
  · unfold UserRepository.Delete
    rw [hq]
  · rw [delete_db, hq]

/-! ## The claims -/

/-- C1. For every database, every id without a row in its table and a backend
that answers without failure, `Get`, `Update` (for every request and clock
reading) and `Delete` each return `ErrNotFound`: for `Get` and `Update` the
scan reports `sql.ErrNoRows`, which the store maps, and for `Delete` the
affected-row count is 0. -/
theorem absent_id_yields_ErrNotFound (db : DB) (env : Env) (id : Int) (clock : Time)
    (req : UserRequest) (hfault : env.fault = .none)
    (habsent : ∀ u ∈ db.table.rows, u.Id ≠ id) :
    (db.QueryRowContext env (.selectById id)).1.Scan = .error .ErrNoRows ∧
    (UserRepository.Get db env id).1 = (User.zero, some .ErrNotFound) ∧
    (db.QueryRowContext env (.update req.Name req.Email clock.UTC id)).1.Scan
      = .error .ErrNoRows ∧
    (UserRepository.Update db env clock id req).1 = (User.zero, some .ErrNotFound) ∧
    (db.ExecContext env (.delete id)).1 = .ok ⟨.ok 0⟩ ∧
    (UserRepository.Delete db env id).1 = some .ErrNotFound :=
  ⟨(get_of_absent hfault habsent).1, (get_of_absent hfault habsent).2,
    (update_of_absent clock req hfault habsent).1, (update_of_absent clock req hfault habsent).2,
    (delete_of_absent hfault habsent).1, (delete_of_absent hfault habsent).2⟩

/-- Witness of C1: id 2 in the database that holds only the row with id 1. -/
theorem absent_id_yields_ErrNotFound_witness :
    (answering 0).fault = .none ∧ (∀ u ∈ oneUser.table.rows, u.Id ≠ 2) ∧
    (UserRepository.Get oneUser (answering 0) 2).1 = (User.zero, some .ErrNotFound) ∧
    (UserRepository.Update oneUser (answering 0) ⟨200, 0⟩ 2 adaL).1
      = (User.zero, some .ErrNotFound) ∧
    (UserRepository.Delete oneUser (answering 0) 2).1 = some .ErrNotFound :=
  have h := absent_id_yields_ErrNotFound oneUser (answering 0) 2 ⟨200, 0⟩ adaL rfl (by decide)
  ⟨rfl, by decide, h.2.1, h.2.2.2.1, h.2.2.2.2.2⟩

/-- Counterexample to C2 as stated: `Create` succeeds on the empty database and
returns `adaRow`, then the connection is lost during `Get`, which returns the
backend error and no record. -/
theorem get_fails_after_create_counterexample :
    (UserRepository.Create DB.empty (answering 1) ⟨100, 0⟩ ada).1 = (adaRow, none) ∧
    (UserRepository.Get (UserRepository.Create DB.empty (answering 1) ⟨100, 0⟩ ada).2
      connectionLost adaRow.Id).1 = (User.zero, some (.driver 7)) ∧
    (UserRepository.Get (UserRepository.Create DB.empty (answering 1) ⟨100, 0⟩ ada).2
      connectionLost adaRow.Id).1 ≠ (adaRow, none) := by
  decide

/-- C2, amended. For every database and request, if `Create` succeeds and
returns `u`, then `Get(u.Id)` on the resulting database, answered by the
backend without failure, succeeds and returns `u` itself (equal in all five
fields). -/
theorem get_after_create (db : DB) (env env2 : Env) (clock : Time)
    (req : UserRequest) (u : User)
    (h : (UserRepository.Create db env clock req).1 = (u, none))
    (hfault : env2.fault = .none) :
    (UserRepository.Get (UserRepository.Create db env clock req).2 env2 u.Id).1 = (u, none) := by
  obtain ⟨_, hrows, _⟩ := create_success h
  have hmem : u ∈ (UserRepository.Create db env clock req).2.table.rows := by
    rw [hrows]; simp
  have hscan : ((UserRepository.Create db env clock req).2.QueryRowContext env2
      (.selectById u.Id)).1.Scan = .ok u := by
    simp [DB.QueryRowContext, DB.QueryContext_none _ env2 _ hfault, Table.exec,
      Table.selectById_mem hmem, Row.Scan]
  unfold UserRepository.Get
  rw [hscan]

/-- Witness of C2: the scenario of section 8, after another row was stored. -/
theorem get_after_create_witness :
    (UserRepository.Create twoUsers (answering 7) ⟨100, 3600⟩ ada).1
      = (⟨7, "Ada", "ada@x.io", ⟨100, 0⟩, ⟨100, 0⟩⟩, none) ∧
    (answering 0).fault = .none ∧
    (UserRepository.Get (UserRepository.Create twoUsers (answering 7) ⟨100, 3600⟩ ada).2
      (answering 0) 7).1 = (⟨7, "Ada", "ada@x.io", ⟨100, 0⟩, ⟨100, 0⟩⟩, none) :=
  ⟨by decide, rfl,
    get_after_create twoUsers (answering 7) (answering 0) ⟨100, 3600⟩ ada
      ⟨7, "Ada", "ada@x.io", ⟨100, 0⟩, ⟨100, 0⟩⟩ (by decide) rfl⟩

/-- Counterexample to C3 as stated: `Delete(1)` succeeds, then the connection is
lost during `Get(1)`, which returns the backend error, not `ErrNotFound`. -/
theorem get_fails_after_delete_counterexample :
    (UserRepository.Delete oneUser (answering 0) 1).1 = none ∧
    (UserRepository.Get (UserRepository.Delete oneUser (answering 0) 1).2 connectionLost 1).1
      = (User.zero, some (.driver 7)) ∧
    (UserRepository.Get (UserRepository.Delete oneUser (answering 0) 1).2 connectionLost 1).1.2
      ≠ some .ErrNotFound := by
  decide

/-- C3, amended. For every database and id, if `Delete(id)` returns a nil error,
then `Get(id)` on the resulting database, answered by the backend without
failure, returns `ErrNotFound`. -/
theorem get_after_delete (db : DB) (env env2 : Env) (id : Int)
    (h : (UserRepository.Delete db env id).1 = none) (hfault : env2.fault = .none) :
    (UserRepository.Get (UserRepository.Delete db env id).2 env2 id).1
      = (User.zero, some .ErrNotFound) := by
  have habsent : ∀ u ∈ (UserRepository.Delete db env id).2.table.rows, u.Id ≠ id := by
    rw [delete_success h]
    exact Table.delete_absent_after db.table id
  exact (get_of_absent hfault habsent).2

/-- Witness of C3: deleting the row with id 1 out of two rows. -/
theorem get_after_delete_witness :
    (UserRepository.Delete twoUsers (answering 0) 1).1 = none ∧
    (answering 0).fault = .none ∧
    (UserRepository.Get (UserRepository.Delete twoUsers (answering 0) 1).2 (answering 0) 1).1
      = (User.zero, some .ErrNotFound) :=
  ⟨by decide, rfl, get_after_delete twoUsers (answering 0) (answering 0) 1 (by decide) rfl⟩

/-- Counterexample to C4 as stated: the row was stamped at instant 100 and the
clock of the `Update` call reads instant 50 (a wall clock that was set back);
the call succeeds and the returned `updated_at` is not later than the
original one. -/
theorem update_updated_at_counterexample :
    adaRow ∈ oneUser.table.rows ∧ adaRow.Id = 1 ∧
    (UserRepository.Update oneUser (answering 0) ⟨50, 0⟩ 1 adaL).1
      = (⟨1, "Ada L", "ada@x.io", ⟨100, 0⟩, ⟨50, 0⟩⟩, none) ∧
    ¬ adaRow.UpdatedAt.Before (UserRepository.Update oneUser (answering 0) ⟨50, 0⟩ 1 adaL).1.1.UpdatedAt := by
  decide

/-- C4, amended. For every database, every id with a row `original` in its
table and every request, a successful `Update` returns a user whose
`created_at` is that of `original` and whose `updated_at` is the clock reading
of the call (in UTC); it is later than `original.updated_at` exactly when that
clock reading is. -/
theorem update_timestamps (db : DB) (env : Env) (clock : Time) (id : Int) (req : UserRequest)
    (original u : User) (horig : original ∈ db.table.rows) (hid : original.Id = id)
    (h : (UserRepository.Update db env clock id req).1 = (u, none)) :
    u.CreatedAt = original.CreatedAt ∧ u.UpdatedAt = clock.UTC ∧
    (original.UpdatedAt.Before u.UpdatedAt ↔ original.UpdatedAt.Before clock) := by
  obtain ⟨⟨o, ho, hoid, hu⟩, _⟩ := update_success h
  have heq : o = original := Table.row_unique ho horig (hoid.trans hid.symm)
  subst heq hu
  exact ⟨rfl, rfl, Iff.rfl⟩

/-- Witness of C4: the update of the scenario of section 8, at a later clock
reading. -/
theorem update_timestamps_witness :
    adaRow ∈ oneUser.table.rows ∧ adaRow.Id = 1 ∧
    (UserRepository.Update oneUser (answering 0) ⟨200, 3600⟩ 1 adaL).1
      = (⟨1, "Ada L", "ada@x.io", ⟨100, 0⟩, ⟨200, 0⟩⟩, none) ∧
    (⟨100, 0⟩ : Time) = adaRow.CreatedAt ∧
    (adaRow.UpdatedAt.Before ⟨200, 0⟩ ↔ adaRow.UpdatedAt.Before ⟨200, 3600⟩) :=
  have h := update_timestamps oneUser (answering 0) ⟨200, 3600⟩ 1 adaL adaRow
    ⟨1, "Ada L", "ada@x.io", ⟨100, 0⟩, ⟨200, 0⟩⟩ (by decide) (by decide) (by decide)
  ⟨by decide, by decide, by decide, h.1, h.2.2⟩

/-- C5. For every database and request, a successful `Create` returns a user
whose `created_at` and `updated_at` are equal, both the single clock reading
of the call taken to UTC (same instant, location UTC), whose name and email
are those of the request, and whose id is the one the backend generated. -/
theorem create_stamps_single_clock_reading (db : DB) (env : Env) (clock : Time)
    (req : UserRequest) (u : User)
    (h : (UserRepository.Create db env clock req).1 = (u, none)) :
    u.CreatedAt = u.UpdatedAt ∧ u.CreatedAt = clock.UTC ∧ u.UpdatedAt = clock.UTC ∧
    u.CreatedAt.nanos = clock.nanos ∧ u.CreatedAt.zone = 0 ∧
    u.Name = req.Name ∧ u.Email = req.Email ∧ u.Id = env.nextval := by
  obtain ⟨hu, _, _⟩ := create_success h
  subst hu
  exact ⟨rfl, rfl, rfl, rfl, rfl, rfl, rfl, rfl⟩

/-- Witness of C5: the creation of the scenario of section 8, with a clock
whose location is one hour east of UTC. -/
theorem create_stamps_single_clock_reading_witness :
    (UserRepository.Create DB.empty (answering 1) ⟨100, 3600⟩ ada).1 = (adaRow, none) ∧
    adaRow.CreatedAt = adaRow.UpdatedAt ∧ adaRow.CreatedAt = Time.UTC ⟨100, 3600⟩ ∧
    adaRow.Name = ada.Name ∧ adaRow.Email = ada.Email ∧ adaRow.Id = (answering 1).nextval :=
  have h := create_stamps_single_clock_reading DB.empty (answering 1) ⟨100, 3600⟩ ada adaRow
    (by decide)
  ⟨by decide, h.1, h.2.1, h.2.2.2.2.2.1, h.2.2.2.2.2.2.1, h.2.2.2.2.2.2.2⟩

/-- C6. For every database and a backend that answers without failure, `List`
returns a nil error and exactly the stored users (a permutation of the rows of
the table) in a sequence whose ids are strictly increasing; on an empty table
it returns the empty sequence and a nil error. The table is left as it was. -/
theorem list_returns_all_by_ascending_id (db : DB) (env : Env) (hfault : env.fault = .none) :
    (UserRepository.List db env).1.2 = none ∧
    (UserRepository.List db env).1.1.Perm db.table.rows ∧
    ((UserRepository.List db env).1.1.map User.Id).Pairwise (fun a b => a < b) ∧
    (db.table.rows = [] → (UserRepository.List db env).1 = ([], none)) ∧
    (UserRepository.List db env).2.table = db.table := by
  rw [list_none db env hfault]
  refine ⟨rfl, db.table.selectAll_perm, db.table.selectAll_ascending, ?_, ?_⟩
  · intro hempty
    simp [Table.selectAll, hempty]
  · unfold UserRepository.List
    simp [DB.QueryContext_none db env _ hfault, Table.exec]

/-- Witness of C6: two rows stored with the larger id first, and the empty
table. -/
theorem list_returns_all_by_ascending_id_witness :
    (answering 0).fault = .none ∧
    (UserRepository.List twoUsers (answering 0)).1 = ([adaRow, bobRow], none) ∧
    (UserRepository.List DB.empty (answering 0)).1 = ([], none) ∧
    ((UserRepository.List twoUsers (answering 0)).1.1.map User.Id).Pairwise
      (fun a b => a < b) :=
  ⟨rfl, by decide, by decide,
    (list_returns_all_by_ascending_id twoUsers (answering 0) rfl).2.2.1⟩

/-- C7. `List` is all-or-nothing. Its result is that of `listResult` on what
`QueryContext` handed back, and for every row stream: when the query itself
failed with `e`, when the scan of a row fails with `e` after any number of rows
were scanned (whatever follows in the stream), and when every row scanned and
the iterator then reports `e`, the result is `e` together with the nil
sequence, none of the rows already scanned. On a database this is what a
failing query, a failing scan of one of the rows and a broken cursor lead
to. -/
theorem list_all_or_nothing :
    (∀ (db : DB) (env : Env), (UserRepository.List db env).1
      = UserRepository.listResult (db.QueryContext env .selectAll).1) ∧
    (∀ e : GoError, UserRepository.listResult (.error e) = ([], some e)) ∧
    (∀ (scanned : List User) (e : GoError) (rest : List (Except GoError User))
      (err : Option GoError),
      UserRepository.listResult (.ok ⟨scanned.map .ok ++ .error e :: rest, err⟩)
        = ([], some e)) ∧
    (∀ (scanned : List User) (e : GoError),
      UserRepository.listResult (.ok ⟨scanned.map .ok, some e⟩) = ([], some e)) ∧
    (∀ (db : DB) (nextval : Int) (e : GoError),
      (UserRepository.List db ⟨.exec e, nextval⟩).1 = ([], some e)) ∧
    (∀ (db : DB) (nextval : Int) (n : Nat) (e : GoError), n < db.table.rows.length →
      (UserRepository.List db ⟨.scan n e, nextval⟩).1 = ([], some e)) ∧
    (∀ (db : DB) (nextval : Int) (n : Nat) (e : GoError),
      (UserRepository.List db ⟨.iter n e, nextval⟩).1 = ([], some e)) := by
  refine ⟨fun _ _ => rfl, fun _ => rfl, ?_, ?_, ?_, ?_, ?_⟩
  · intro scanned e rest err
    simp [UserRepository.listResult, scanRows_error]
  · intro scanned e
    simp [UserRepository.listResult, scanRows_ok]
  · intro db nextval e
    rfl
  · intro db nextval n e hn
    have hlen : n - 0 < db.table.selectAll.length := by
      rw [Table.selectAll, List.length_insertionSort]
      simpa using hn
    have hloop := scanRows_enumFrom db.table.selectAll n e 0 [] (Nat.zero_le n) hlen
    simp only [UserRepository.List, DB.QueryContext, Table.exec, Rows.deliver,
      UserRepository.listResult, List.enum]
    rw [hloop]
  · intro db nextval n e
    simp only [UserRepository.List, DB.QueryContext, Table.exec, Rows.deliver,
      UserRepository.listResult, scanRows_ok]

/-- Witness of C7: with two rows stored, the scan of the second row fails. -/
theorem list_all_or_nothing_witness :
    1 < twoUsers.table.rows.length ∧
    (UserRepository.List twoUsers ⟨.scan 1 (.driver 9), 0⟩).1 = ([], some (.driver 9)) :=
  ⟨by decide, list_all_or_nothing.2.2.2.2.2.1 twoUsers 0 1 (.driver 9) (by decide)⟩

/-- Counterexample to C8 as stated: the backend fails `Get` and `Update` of an
existing row with an error that wraps `sql.ErrNoRows`; the error is not
`sql.ErrNoRows`, yet both return `ErrNotFound` and not the error itself. -/
theorem wrapped_no_rows_counterexample :
    wrappedNoRows ≠ .ErrNoRows ∧
    (oneUser.QueryRowContext failingWrapped (.selectById 1)).1.Scan = .error wrappedNoRows ∧
    (UserRepository.Get oneUser failingWrapped 1).1 = (User.zero, some .ErrNotFound) ∧
    (UserRepository.Get oneUser failingWrapped 1).1.2 ≠ some wrappedNoRows ∧
    (UserRepository.Update oneUser failingWrapped ⟨200, 0⟩ 1 adaL).1
      = (User.zero, some .ErrNotFound) ∧
    (UserRepository.Update oneUser failingWrapped ⟨200, 0⟩ 1 adaL).1.2 ≠ some wrappedNoRows :=
  ⟨by decide, rfl, by decide, by decide, by decide, by decide⟩

/-- C8, amended. For every backend error `e` handed to an operation, at
whichever point of the call: `Get` and `Update` return `ErrNotFound` in its
place exactly when `errors.Is(e, sql.ErrNoRows)` holds, that is when `e` is
`sql.ErrNoRows` or wraps it at any depth (it holds of `sql.ErrNoRows`, of a
wrapping error when it holds of the wrapped one, and of no error of the driver),
and return `e` itself otherwise; `List`, `Create` and `Delete` return `e`
itself in every case. -/
theorem backend_error_translation (db : DB) (env : Env) (clock : Time) (id : Int)
    (req : UserRequest) (e : GoError) :
    ((db.QueryContext env .selectAll).1 = .error e →
      (UserRepository.List db env).1 = ([], some e)) ∧
    (∀ (scanned : List User) (rest : List (Except GoError User)) (err : Option GoError),
      (db.QueryContext env .selectAll).1 = .ok ⟨scanned.map .ok ++ .error e :: rest, err⟩ →
      (UserRepository.List db env).1 = ([], some e)) ∧
    (∀ scanned : List User,
      (db.QueryContext env .selectAll).1 = .ok ⟨scanned.map .ok, some e⟩ →
      (UserRepository.List db env).1 = ([], some e)) ∧
    ((db.QueryRowContext env (.selectById id)).1.Scan = .error e →
      (UserRepository.Get db env id).1
        = (User.zero, some (if errorsIs e .ErrNoRows then .ErrNotFound else e))) ∧
    ((db.QueryRowContext env (.insert req.Name req.Email clock.UTC clock.UTC)).1.Scan
        = .error e →
      (UserRepository.Create db env clock req).1 = (User.zero, some e)) ∧
    ((db.QueryRowContext env (.update req.Name req.Email clock.UTC id)).1.Scan = .error e →
      (UserRepository.Update db env clock id req).1
        = (User.zero, some (if errorsIs e .ErrNoRows then .ErrNotFound else e))) ∧
    ((db.ExecContext env (.delete id)).1 = .error e →
      (UserRepository.Delete db env id).1 = some e) ∧
    (∀ result : Result, (db.ExecContext env (.delete id)).1 = .ok result →
      result.RowsAffected = .error e → (UserRepository.Delete db env id).1 = some e) ∧
    errorsIs .ErrNoRows .ErrNoRows = true ∧
    (∀ code : Nat, errorsIs (.driver code) .ErrNoRows = false) ∧
    errorsIs .ErrNotFound .ErrNoRows = false ∧
    (∀ (msg : String) (inner : GoError),
      errorsIs (.wrap msg inner) .ErrNoRows = errorsIs inner .ErrNoRows) := by
  refine ⟨?_, ?_, ?_, ?_, ?_, ?_, ?_, ?_, rfl, fun _ => rfl, rfl,
    fun _ _ => by simp [errorsIs]⟩
  · intro h
    unfold UserRepository.List
    rw [h]
    rfl
  · intro scanned rest err h
    unfold UserRepository.List
    rw [h]
    simp [UserRepository.listResult, scanRows_error]
  · intro scanned h
    unfold UserRepository.List
    rw [h]
    simp [UserRepository.listResult, scanRows_ok]
  · intro h
    unfold UserRepository.Get
    rw [h]
    by_cases he : errorsIs e .ErrNoRows <;> simp [he]
  · intro h
    unfold UserRepository.Create
    simp only []
    rw [h]
  · intro h
    unfold UserRepository.Update
    simp only []
    rw [h]
    by_cases he : errorsIs e .ErrNoRows <;> simp [he]
  · intro h
    unfold UserRepository.Delete
    rw [h]
  · intro result h hres
    unfold UserRepository.Delete
    rw [h]
    simp only []
    rw [hres]

/-- Witness of C8: the connection is lost with a driver error during each of
the five operations, and `Get` is failed with an error wrapping
`sql.ErrNoRows`. -/
theorem backend_error_translation_witness :
    (oneUser.QueryContext connectionLost .selectAll).1 = .error (.driver 7) ∧
    (UserRepository.List oneUser connectionLost).1 = ([], some (.driver 7)) ∧
    (UserRepository.Get oneUser connectionLost 1).1 = (User.zero, some (.driver 7)) ∧
    (UserRepository.Create oneUser connectionLost ⟨200, 0⟩ adaL).1
      = (User.zero, some (.driver 7)) ∧
    (UserRepository.Update oneUser connectionLost ⟨200, 0⟩ 1 adaL).1
      = (User.zero, some (.driver 7)) ∧
    (UserRepository.Delete oneUser connectionLost 1).1 = some (.driver 7) ∧
    (oneUser.QueryRowContext failingWrapped (.selectById 1)).1.Scan = .error wrappedNoRows ∧
    (UserRepository.Get oneUser failingWrapped 1).1
      = (User.zero, some (if errorsIs wrappedNoRows .ErrNoRows then .ErrNotFound
          else wrappedNoRows)) :=
  have h := backend_error_translation oneUser connectionLost ⟨200, 0⟩ 1 adaL (.driver 7)
  ⟨rfl, h.1 rfl, h.2.2.2.1 rfl, h.2.2.2.2.1 rfl, h.2.2.2.2.2.1 rfl, h.2.2.2.2.2.2.1 rfl, rfl,
    (backend_error_translation oneUser failingWrapped ⟨200, 0⟩ 1 adaL wrappedNoRows).2.2.2.1
      rfl⟩

/-- Counterexample to C9 as stated: a row is created when the clock reads
instant 100 and updated when it reads instant 50 (each call stamps its own
reading); the stored row then has `created_at` later than `updated_at`. -/
theorem created_le_updated_counterexample :
    (runCalls DB.empty
      [.create (answering 1) ⟨100, 0⟩ ada, .update (answering 0) ⟨50, 0⟩ 1 adaL]).table.rows
      = [⟨1, "Ada L", "ada@x.io", ⟨100, 0⟩, ⟨50, 0⟩⟩] ∧
    ¬ (∀ u ∈ (runCalls DB.empty
      [.create (answering 1) ⟨100, 0⟩ ada, .update (answering 0) ⟨50, 0⟩ 1 adaL]).table.rows,
      u.CreatedAt.nanos ≤ u.UpdatedAt.nanos) := by
  decide

/-- C9, amended. `created_at <= updated_at` holds for every row of every table
reached from the empty table by a sequence of `Create`, `Update` and `Delete`
calls, whatever the backend does in them, provided no call reads the clock at
an earlier instant than a call before it. -/
theorem created_le_updated_reachable (calls : List Call) (hclock : clockNeverBackwards calls) :
    ∀ u ∈ (runCalls DB.empty calls).table.rows, u.CreatedAt.nanos ≤ u.UpdatedAt.nanos := by
  have hlow : ∀ c : Int, (∀ t ∈ calls.filterMap Call.clock, c ≤ t.nanos) →
      ∃ d, (runCalls DB.empty calls).table.StampedBy d :=
    fun c hc => runCalls_stamped calls DB.empty c (fun u hu => by cases hu) hc hclock
  cases hcl : calls.filterMap Call.clock with
  | nil =>
    obtain ⟨d, hd⟩ := hlow 0 (by simp [hcl])
    exact fun u hu => (hd u hu).1
  | cons t rest =>
    have hpair : (t :: rest).Pairwise (fun a b => ¬ b.Before a) := by
      have := hclock
      unfold clockNeverBackwards at this
      rwa [hcl] at this
    obtain ⟨d, hd⟩ := hlow t.nanos (by
      intro s hs
      rw [hcl] at hs
      rcases List.mem_cons.mp hs with rfl | hs
      · exact le_refl _
      · exact not_lt.mp ((List.pairwise_cons.mp hpair).1 s hs))
    exact fun u hu => (hd u hu).1

/-- Witness of C9: the scenario of section 8 up to the update, then a second
creation and a delete, with clock readings 100, 100, 250. -/
theorem created_le_updated_reachable_witness :
    clockNeverBackwards
      [.create (answering 1) ⟨100, 0⟩ ada, .update (answering 0) ⟨100, 0⟩ 1 adaL,
        .create (answering 2) ⟨250, 0⟩ ada, .delete (answering 0) 2] ∧
    (runCalls DB.empty
      [.create (answering 1) ⟨100, 0⟩ ada, .update (answering 0) ⟨100, 0⟩ 1 adaL,
        .create (answering 2) ⟨250, 0⟩ ada, .delete (answering 0) 2]).table.rows
      = [⟨1, "Ada L", "ada@x.io", ⟨100, 0⟩, ⟨100, 0⟩⟩] ∧
    ∀ u ∈ (runCalls DB.empty
      [.create (answering 1) ⟨100, 0⟩ ada, .update (answering 0) ⟨100, 0⟩ 1 adaL,
        .create (answering 2) ⟨250, 0⟩ ada, .delete (answering 0) 2]).table.rows,
      u.CreatedAt.nanos ≤ u.UpdatedAt.nanos :=
  ⟨by decide, by decide, created_le_updated_reachable _ (by decide)⟩

/-- Counterexample to C10 as stated: `Delete(1)` removes the row and
`RowsAffected()` then fails; `Create` stores the row and the cursor then breaks
before the returned row is read; `Update(1)` rewrites the row and the scan of
the returned row then fails. Each call returns the error, and the table is no
longer what it was. -/
theorem failed_call_unchanged_counterexample :
    (UserRepository.Delete oneUser (lostAfterExecution (.affected (.driver 7))) 1).1
      = some (.driver 7) ∧
    oneUser.table.rows = [adaRow] ∧
    (UserRepository.Delete oneUser (lostAfterExecution (.affected (.driver 7))) 1).2.table.rows
      = [] ∧
    (UserRepository.Create DB.empty (lostAfterExecution (.iter 0 (.driver 7))) ⟨100, 0⟩ ada).1
      = (User.zero, some (.driver 7)) ∧
    DB.empty.table.rows = [] ∧
    (UserRepository.Create DB.empty (lostAfterExecution (.iter 0 (.driver 7))) ⟨100, 0⟩
      ada).2.table.rows = [adaRow] ∧
    (UserRepository.Update oneUser (lostAfterExecution (.scan 0 (.driver 7))) ⟨200, 0⟩ 1
      adaL).1 = (User.zero, some (.driver 7)) ∧
    (UserRepository.Update oneUser (lostAfterExecution (.scan 0 (.driver 7))) ⟨200, 0⟩ 1
      adaL).2.table.rows = [⟨1, "Ada L", "ada@x.io", ⟨100, 0⟩, ⟨200, 0⟩⟩] := by
  decide

/-- C10, amended. Every call of `Create`, `Update` and `Delete` issues exactly
one statement to the backend, whether it fails or not. A call that returns a
non-nil error leaves the table as it was unless the failure struck after the
backend had executed the statement, and then the table is the one with the
write applied. Such a failure is returned and the write is not undone: when the
returned row cannot be read with error `e`, `Create` (of an id no row has)
returns `e` with the row appended, and `Update` of an existing row returns `e`,
or `ErrNotFound` when `errors.Is(e, sql.ErrNoRows)`, with the row rewritten;
when `RowsAffected()` fails with `e`, `Delete` returns `e` with every row of
that id removed. -/
theorem failed_call_effect (db : DB) (env : Env) (clock : Time) (id : Int)
    (req : UserRequest) :
    (UserRepository.Create db env clock req).2.log
      = db.log ++ [.insert req.Name req.Email clock.UTC clock.UTC] ∧
    (UserRepository.Update db env clock id req).2.log
      = db.log ++ [.update req.Name req.Email clock.UTC id] ∧
    (UserRepository.Delete db env id).2.log = db.log ++ [.delete id] ∧
    ((UserRepository.Create db env clock req).1.2 ≠ none →
      (UserRepository.Create db env clock req).2.table = db.table ∨
      (env.fault.afterExecution = true ∧
        (UserRepository.Create db env clock req).2.table.rows
          = db.table.rows ++ [⟨env.nextval, req.Name, req.Email, clock.UTC, clock.UTC⟩])) ∧
    ((UserRepository.Update db env clock id req).1.2 ≠ none →
      (UserRepository.Update db env clock id req).2.table = db.table ∨
      (env.fault.afterExecution = true ∧
        (UserRepository.Update db env clock id req).2.table
          = db.table.update req.Name req.Email clock.UTC id)) ∧
    ((UserRepository.Delete db env id).1 ≠ none →
      (UserRepository.Delete db env id).2.table = db.table ∨
      (env.fault.afterExecution = true ∧
        (UserRepository.Delete db env id).2.table = db.table.delete id)) ∧
    (∀ e : GoError, (env.fault = .scan 0 e ∨ env.fault = .iter 0 e) →
      (∀ v ∈ db.table.rows, v.Id ≠ env.nextval) →
      (UserRepository.Create db env clock req).1 = (User.zero, some e) ∧
      (UserRepository.Create db env clock req).2.table.rows
        = db.table.rows ++ [⟨env.nextval, req.Name, req.Email, clock.UTC, clock.UTC⟩]) ∧
    (∀ (e : GoError) (original : User), (env.fault = .scan 0 e ∨ env.fault = .iter 0 e) →
      original ∈ db.table.rows → original.Id = id →
      (UserRepository.Update db env clock id req).1
        = (User.zero, some (if errorsIs e .ErrNoRows then .ErrNotFound else e)) ∧
      (UserRepository.Update db env clock id req).2.table
        = db.table.update req.Name req.Email clock.UTC id ∧
      original.set req.Name req.Email clock.UTC
        ∈ (UserRepository.Update db env clock id req).2.table.rows) ∧
    (∀ e : GoError, env.fault = .affected e →
      (UserRepository.Delete db env id).1 = some e ∧
      (UserRepository.Delete db env id).2.table = db.table.delete id ∧
      ∀ u ∈ (UserRepository.Delete db env id).2.table.rows, u.Id ≠ id) := by
  refine ⟨?_, ?_, ?_, ?_, ?_, ?_, ?_, ?_, ?_⟩
  · rw [create_db, DB.QueryContext_log]
  · rw [update_db, DB.QueryContext_log]
  · rw [delete_db, DB.ExecContext_log]
  · intro herr
    cases hafter : env.fault.afterExecution with
    | false => exact Or.inl (create_failed herr hafter)
    | true =>
      rcases create_table_cases db env clock req with h | h
      · exact Or.inl h
      · exact Or.inr ⟨rfl, h⟩
  · intro herr
    cases hafter : env.fault.afterExecution with
    | false => exact Or.inl (update_failed herr hafter)
    | true =>
      rcases update_table_cases db env clock id req with h | h
      · exact Or.inl h
      · exact Or.inr ⟨rfl, h⟩
  · intro herr
    cases hafter : env.fault.afterExecution with
    | false => exact Or.inl (delete_failed herr hafter)
    | true =>
      rcases delete_table_cases db env id with h | h
      · exact Or.inl h
      · exact Or.inr ⟨rfl, h⟩
  · intro e hf hfresh
    exact create_unread clock req hf hfresh
  · intro e original hf horig hid
    subst hid
    exact update_unread clock req hf horig
  · intro e hf
    obtain ⟨herr, htable⟩ := delete_unread id hf
    refine ⟨herr, htable, ?_⟩
    rw [htable]
    exact Table.delete_absent_after db.table id

/-- Witness of C10: the connection is lost before the statement of `Create` is
executed, and the table is as it was; the scan of the row returned to
`Update(1)` fails after the row was rewritten; `RowsAffected()` fails after
`Delete(1)` removed the row. -/
theorem failed_call_effect_witness :
    (UserRepository.Create oneUser connectionLost ⟨200, 0⟩ adaL).1.2 ≠ none ∧
    ((UserRepository.Create oneUser connectionLost ⟨200, 0⟩ adaL).2.table = oneUser.table ∨
      (connectionLost.fault.afterExecution = true ∧
        (UserRepository.Create oneUser connectionLost ⟨200, 0⟩ adaL).2.table.rows
          = oneUser.table.rows ++ [⟨0, "Ada L", "ada@x.io", ⟨200, 0⟩, ⟨200, 0⟩⟩])) ∧
    connectionLost.fault.afterExecution = false ∧
    adaRow ∈ oneUser.table.rows ∧ adaRow.Id = 1 ∧
    (UserRepository.Update oneUser (lostAfterExecution (.scan 0 (.driver 7))) ⟨200, 0⟩ 1
      adaL).1 = (User.zero, some (.driver 7)) ∧
    adaRow.set "Ada L" "ada@x.io" ⟨200, 0⟩
      ∈ (UserRepository.Update oneUser (lostAfterExecution (.scan 0 (.driver 7))) ⟨200, 0⟩ 1
          adaL).2.table.rows ∧
    (UserRepository.Delete oneUser (lostAfterExecution (.affected (.driver 7))) 1).1
      = some (.driver 7) ∧
    (UserRepository.Delete oneUser (lostAfterExecution (.affected (.driver 7))) 1).2.table
      = oneUser.table.delete 1 :=
  have hu := (failed_call_effect oneUser (lostAfterExecution (.scan 0 (.driver 7))) ⟨200, 0⟩ 1
    adaL).2.2.2.2.2.2.2.1 (.driver 7) adaRow (Or.inl rfl) (by decide) (by decide)
  have hd := (failed_call_effect oneUser (lostAfterExecution (.affected (.driver 7))) ⟨200, 0⟩
    1 adaL).2.2.2.2.2.2.2.2 (.driver 7) rfl
  ⟨by decide,
    (failed_call_effect oneUser connectionLost ⟨200, 0⟩ 1 adaL).2.2.2.1 (by decide),
    rfl, by decide, by decide, hu.1, hu.2.2, hd.1, hd.2.1⟩

end OapiSample
